import Mathlib

/-!
Shallow embedding of the faktor dotenv loader (src/lib.rs) and verification
of its specification.  The ambient process environment is made explicit as a
store value that every operation threads; line reads are modelled as a list
of `Except` values, mirroring `BufReader::lines()`.
-/

/-- A line of text, as a list of characters. -/
abbrev Line := List Char

/-- Environment-variable store: a total map from keys to optional values.
Models the ambient process environment accessed through
`std::env::var`, `std::env::set_var` and `std::env::remove_var`. -/
abbrev EnvStore := List Char → Option (List Char)

/-- Opaque payload of an operating-system I/O failure (`std::io::Error`),
identified by a code. -/
structure IOError where
  code : Nat
deriving DecidableEq

/-- `FaktorError` (src/lib.rs lines 7-10): the single error category,
wrapping an underlying I/O error. -/
inductive FaktorError where
  | Io : IOError → FaktorError
deriving DecidableEq

/-- `error::Error::source` for `FaktorError` (src/lib.rs lines 20-26):
exposes the wrapped I/O error as the underlying cause. -/
def FaktorError.source : FaktorError → Option IOError
  | FaktorError.Io err => some err

/-- `std::env::var`: read a variable; `none` models `Err(VarError::NotPresent)`. -/
def envVar (env : EnvStore) (key : List Char) : Option (List Char) :=
  env key

/-- `std::env::set_var`: set a variable, replacing any existing entry. -/
def envSetVar (env : EnvStore) (key val : List Char) : EnvStore :=
  fun k => if k = key then some val else env k

/-- `std::env::remove_var`: remove a variable from the store. -/
def envRemoveVar (env : EnvStore) (key : List Char) : EnvStore :=
  fun k => if k = key then none else env k

/-- `char::is_whitespace`: the Unicode White_Space property, used by
`str::trim`. -/
def is_whitespace (c : Char) : Bool :=
  c.toNat = 0x09 || c.toNat = 0x0A || c.toNat = 0x0B || c.toNat = 0x0C ||
  c.toNat = 0x0D || c.toNat = 0x20 || c.toNat = 0x85 || c.toNat = 0xA0 ||
  c.toNat = 0x1680 || (0x2000 ≤ c.toNat && c.toNat ≤ 0x200A) ||
  c.toNat = 0x2028 || c.toNat = 0x2029 || c.toNat = 0x202F ||
  c.toNat = 0x205F || c.toNat = 0x3000

/-- `str::trim_start`: drop leading whitespace. -/
def trim_start (s : List Char) : List Char :=
  s.dropWhile is_whitespace

/-- `str::trim_end`: drop trailing whitespace. -/
def trim_end (s : List Char) : List Char :=
  (s.reverse.dropWhile is_whitespace).reverse

/-- `str::trim`: drop leading and trailing whitespace. -/
def trim (s : List Char) : List Char :=
  trim_end (trim_start s)

/-- `split_once` (src/lib.rs lines 104-109): `splitn(2, '=')` — split on the
first occurrence of the separator, at most once; the second component is
`none` when no separator occurs, and keeps any further separators unsplit. -/
def split_once : List Char → List Char × Option (List Char)
  | [] => ([], none)
  | c :: rest =>
    if c = '=' then ([], some rest)
    else (c :: (split_once rest).1, (split_once rest).2)

/-- `str::starts_with` specialised to a single-character pattern, as used by
`line.starts_with('#')` in src/lib.rs line 91. -/
def starts_with (c : Char) (s : List Char) : Bool :=
  match s with
  | [] => false
  | d :: _ => d = c

/-- The shape of `SetEnvVar::set` (src/lib.rs lines 34-36), with the ambient
environment store passed explicitly. -/
abbrev PolicyFn := EnvStore → List Char → Option (List Char) → Except FaktorError EnvStore

/-- `impl SetEnvVar for Override` (src/lib.rs lines 44-52): empty or absent
value removes the key, any other value is set unconditionally; always `Ok`. -/
def Override.set : PolicyFn := fun env key value =>
  match value with
  | some [] => Except.ok (envRemoveVar env key)
  | none => Except.ok (envRemoveVar env key)
  | some val => Except.ok (envSetVar env key val)

/-- `impl SetEnvVar for Skip` (src/lib.rs lines 54-63): a present value is
set only when the key is currently absent; always `Ok`. -/
def Skip.set : PolicyFn := fun env key value =>
  match value with
  | none => Except.ok env
  | some val =>
    match envVar env key with
    | none => Except.ok (envSetVar env key val)
    | some _ => Except.ok env

/-- `init_inner` (src/lib.rs lines 81-102): process the line reads in order,
threading the environment store.  Returns the final store together with the
error, if any, that aborted the load; in Rust the store is global, so
mutations made before an early `Err` return persist, hence the pair. -/
def init_inner (mode : PolicyFn) :
    List (Except IOError Line) → EnvStore → EnvStore × Option FaktorError
  | [], env => (env, none)
  | item :: rest, env =>
    match item with
    | Except.error e => (env, some (FaktorError.Io e))
    | Except.ok rawLine =>
      let line := trim rawLine
      if starts_with '#' line then init_inner mode rest env
      else
        let kv := split_once line
        let key := trim kv.1
        if key = [] then init_inner mode rest env
        else
          match mode env key kv.2 with
          | Except.error e => (env, some e)
          | Except.ok env2 => init_inner mode rest env2

/-- The file-open collaborator: maps a filename to either an open failure or
the sequence of line reads produced by `BufReader::lines()`. -/
abbrev FileSystem := List Char → Except IOError (List (Except IOError Line))

/-- `from_file` (src/lib.rs lines 72-79): open the file, wrapping an open
failure, then delegate to `init_inner`. -/
def from_file (fs : FileSystem) (filename : List Char) (mode : PolicyFn)
    (env : EnvStore) : EnvStore × Option FaktorError :=
  match fs filename with
  | Except.error e => (env, some (FaktorError.Io e))
  | Except.ok lines => init_inner mode lines env

/-- `init` (src/lib.rs lines 65-70): load from the default filename `.env`. -/
def init (fs : FileSystem) (mode : PolicyFn) (env : EnvStore) :
    EnvStore × Option FaktorError :=
  from_file fs (['.', 'e', 'n', 'v']) mode env

/-! Helper lemmas. -/

/-- Characterisation of `split_once`: either no separator occurs and the
input is returned whole with no value, or the input decomposes as
key, separator, value with no separator in the key. -/
theorem split_once_spec (s : List Char) :
    (split_once s = (s, none) ∧ '=' ∉ s) ∨
    (∃ k v, split_once s = (k, some v) ∧ s = k ++ '=' :: v ∧ '=' ∉ k) := by
  induction s with
  | nil => exact Or.inl ⟨rfl, by simp⟩
  | cons c rest ih =>
    by_cases hc : c = '='
    · subst hc
      exact Or.inr ⟨[], rest, by simp [split_once], by simp, by simp⟩
    · rcases ih with ⟨h1, h2⟩ | ⟨k, v, h1, h2, h3⟩
      · refine Or.inl ⟨?_, ?_⟩
        · simp [split_once, hc, h1]
        · simp [h2]
          exact fun h => hc h.symm
      · refine Or.inr ⟨c :: k, v, ?_, by simp [h2], ?_⟩
        · simp [split_once, hc, h1]
        · simp [h3]
          exact fun h => hc h.symm

/-- Dropping a satisfied prefix is idempotent. -/
theorem dropWhile_idem (p : Char → Bool) (l : List Char) :
    (l.dropWhile p).dropWhile p = l.dropWhile p := by
  induction l with
  | nil => rfl
  | cons c t ih =>
    by_cases hc : p c
    · simp [List.dropWhile, hc, ih]
    · simp [List.dropWhile, hc]

/-- `dropWhile` never lengthens a list. -/
theorem dropWhile_length_le (p : Char → Bool) (l : List Char) :
    (l.dropWhile p).length ≤ l.length := by
  induction l with
  | nil => simp
  | cons c t ih =>
    by_cases hc : p c
    · simp only [List.dropWhile, hc]
      exact Nat.le_succ_of_le ih
    · simp [List.dropWhile, hc]

/-- If `dropWhile` leaves a list unchanged, it leaves every prefix of the
list unchanged as well. -/
theorem dropWhile_eq_self_of_append (p : Char → Bool) (x y : List Char)
    (h : (x ++ y).dropWhile p = x ++ y) : x.dropWhile p = x := by
  cases x with
  | nil => rfl
  | cons c t =>
    by_cases hc : p c
    · exfalso
      have hlen : ((c :: (t ++ y)).dropWhile p).length ≤ (t ++ y).length := by
        simp only [List.dropWhile, hc]
        exact dropWhile_length_le p (t ++ y)
      rw [show c :: (t ++ y) = (c :: t) ++ y from rfl, h] at hlen
      simp at hlen
    · simp [List.dropWhile, hc]

/-- `trim_start` is idempotent. -/
theorem trim_start_idem (s : List Char) : trim_start (trim_start s) = trim_start s := by
  simp [trim_start, dropWhile_idem]

/-- `trim_end` is idempotent. -/
theorem trim_end_idem (s : List Char) : trim_end (trim_end s) = trim_end s := by
  simp [trim_end, dropWhile_idem]

/-- `trim_end` produces a prefix: the input is the output followed by the
dropped whitespace suffix. -/
theorem trim_end_append (s : List Char) :
    s = trim_end s ++ (s.reverse.takeWhile is_whitespace).reverse := by
  unfold trim_end
  have h := congrArg List.reverse
      (List.takeWhile_append_dropWhile (p := is_whitespace) (l := s.reverse))
  simp only [List.reverse_append, List.reverse_reverse] at h
  exact h.symm

/-- A list already trimmed at the start stays trimmed at the start after
trimming its end. -/
theorem trim_start_trim_end (s : List Char) (h : trim_start s = s) :
    trim_start (trim_end s) = trim_end s := by
  have hsplit := trim_end_append s
  have := dropWhile_eq_self_of_append is_whitespace (trim_end s)
      ((s.reverse.takeWhile is_whitespace).reverse)
  apply this
  rw [← hsplit]
  exact h

/-- `trim` is idempotent. -/
theorem trim_idem (s : List Char) : trim (trim s) = trim s := by
  unfold trim
  rw [trim_start_trim_end (trim_start s) (trim_start_idem s)]
  exact trim_end_idem (trim_start s)

/-- A trimmed string is trimmed at its end. -/
theorem trim_end_trim (s : List Char) : trim_end (trim s) = trim s := by
  unfold trim
  exact trim_end_idem (trim_start s)

/-- If a list is trimmed at its end, so is every suffix of it. -/
theorem trim_end_suffix (x y : List Char) (h : trim_end (x ++ y) = x ++ y) :
    trim_end y = y := by
  unfold trim_end at h ⊢
  have h2 := congrArg List.reverse h
  simp only [List.reverse_reverse] at h2
  rw [List.reverse_append] at h2
  have := dropWhile_eq_self_of_append is_whitespace y.reverse x.reverse h2
  rw [this]
  exact List.reverse_reverse y

/-- Unfolding of `init_inner` on a successful line read. -/
theorem init_inner_ok_cons (mode : PolicyFn) (rawLine : Line)
    (rest : List (Except IOError Line)) (env : EnvStore) :
    init_inner mode (Except.ok rawLine :: rest) env =
      (if starts_with '#' (trim rawLine) then init_inner mode rest env
       else if trim (split_once (trim rawLine)).1 = [] then init_inner mode rest env
       else
         match mode env (trim (split_once (trim rawLine)).1) (split_once (trim rawLine)).2 with
         | Except.error e => (env, some e)
         | Except.ok env2 => init_inner mode rest env2) := rfl

/-- Two policies that agree on every key/value pair the loader can actually
produce (a comment line filtered out, a non-empty trimmed key) yield
identical loads. -/
theorem init_inner_policy_congr (p q : PolicyFn)
    (h : ∀ env rawLine,
      starts_with '#' (trim rawLine) = false →
      trim (split_once (trim rawLine)).1 ≠ [] →
      p env (trim (split_once (trim rawLine)).1) (split_once (trim rawLine)).2
        = q env (trim (split_once (trim rawLine)).1) (split_once (trim rawLine)).2) :
    ∀ lines env, init_inner p lines env = init_inner q lines env := by
  intro lines
  induction lines with
  | nil => intro env; rfl
  | cons item rest ih =>
    intro env
    cases item with
    | error e => rfl
    | ok rawLine =>
      rw [init_inner_ok_cons, init_inner_ok_cons]
      by_cases h1 : starts_with '#' (trim rawLine) = true
      · rw [if_pos h1, if_pos h1]
        exact ih env
      · rw [if_neg h1, if_neg h1]
        by_cases h2 : trim (split_once (trim rawLine)).1 = []
        · rw [if_pos h2, if_pos h2]
          exact ih env
        · rw [if_neg h2, if_neg h2]
          rw [h env rawLine (by simpa using h1) h2]
          cases q env (trim (split_once (trim rawLine)).1) (split_once (trim rawLine)).2 with
          | error e => rfl
          | ok env2 => exact ih env2

/-! Claim theorems. -/

/-- C1: the line parser splits on the first occurrence of `=` at most once:
with no `=` it returns the full string and no value; otherwise it returns
the substring before the first `=` and the (possibly empty, possibly
`=`-containing) substring after it, with no trimming; it is total. -/
theorem split_once_first_separator (s : List Char) :
    (split_once s = (s, none) ∧ '=' ∉ s) ∨
    (∃ k v, split_once s = (k, some v) ∧ s = k ++ '=' :: v ∧ '=' ∉ k) :=
  split_once_spec s

/-- Witness for C1 at a concrete input. -/
theorem split_once_first_separator_witness :
    (split_once ['T', '=', 'v'] = (['T', '=', 'v'], none) ∧ '=' ∉ ['T', '=', 'v']) ∨
    (∃ k v, split_once ['T', '=', 'v'] = (k, some v) ∧
      ['T', '=', 'v'] = k ++ '=' :: v ∧ '=' ∉ k) :=
  split_once_first_separator ['T', '=', 'v']

/-- C2: the Override policy removes the key when the value is absent or
empty, otherwise sets it unconditionally, leaves every other key alone,
and always succeeds. -/
theorem override_apply (env : EnvStore) (key : List Char) (value : Option (List Char)) :
    ∃ env2, Override.set env key value = Except.ok env2 ∧
      env2 key = (if value = none ∨ value = some [] then none else value) ∧
      ∀ k, k ≠ key → env2 k = env k := by
  match value with
  | none =>
    refine ⟨envRemoveVar env key, rfl, by simp [envRemoveVar], ?_⟩
    intro k hk
    simp [envRemoveVar, hk]
  | some [] =>
    refine ⟨envRemoveVar env key, rfl, by simp [envRemoveVar], ?_⟩
    intro k hk
    simp [envRemoveVar, hk]
  | some (c :: cs) =>
    refine ⟨envSetVar env key (c :: cs), rfl, by simp [envSetVar], ?_⟩
    intro k hk
    simp [envSetVar, hk]

/-- Witness for C2 at a concrete input. -/
theorem override_apply_witness :
    ∃ env2, Override.set (fun _ => none) ['K'] (some ['v']) = Except.ok env2 ∧
      env2 ['K'] = (if (some ['v'] : Option (List Char)) = none ∨ some ['v'] = some [] then none
        else some ['v']) ∧
      ∀ k, k ≠ ['K'] → env2 k = (fun _ => none : EnvStore) k :=
  override_apply (fun _ => none) ['K'] (some ['v'])

/-- C3: the Skip policy does nothing on an absent value; on a present value
(empty string included) it sets the key only when the key is currently
absent and otherwise leaves the store untouched; it always succeeds. -/
theorem skip_apply (env : EnvStore) (key : List Char) (value : Option (List Char)) :
    ∃ env2, Skip.set env key value = Except.ok env2 ∧
      (value = none → env2 = env) ∧
      (∀ v, value = some v → env key = none →
        env2 key = some v ∧ ∀ k, k ≠ key → env2 k = env k) ∧
      (∀ v, value = some v → env key ≠ none → env2 = env) := by
  match value with
  | none => exact ⟨env, rfl, fun _ => rfl, by simp, by simp⟩
  | some v =>
    match hv : env key with
    | none =>
      refine ⟨envSetVar env key v, ?_, by simp, ?_, ?_⟩
      · simp only [Skip.set, envVar, hv]
      · intro w hw _
        cases hw
        constructor
        · simp [envSetVar]
        · intro k hk
          simp [envSetVar, hk]
      · intro w hw hpresent
        exact absurd rfl hpresent
    | some old =>
      refine ⟨env, ?_, by simp, ?_, fun _ _ _ => rfl⟩
      · simp only [Skip.set, envVar, hv]
      · intro w hw habsent
        exact absurd habsent (by simp)

/-- Witness for C3 at a concrete input. -/
theorem skip_apply_witness :
    ∃ env2, Skip.set (fun _ => none) ['K'] (some ['v']) = Except.ok env2 ∧
      ((some ['v'] : Option (List Char)) = none → env2 = (fun _ => none : EnvStore)) ∧
      (∀ v, some ['v'] = some v → (fun _ => none : EnvStore) ['K'] = none →
        env2 ['K'] = some v ∧ ∀ k, k ≠ ['K'] → env2 k = (fun _ => none : EnvStore) k) ∧
      (∀ v, some ['v'] = some v → (fun _ => none : EnvStore) ['K'] ≠ none →
        env2 = (fun _ => none : EnvStore)) :=
  skip_apply (fun _ => none) ['K'] (some ['v'])

/-- C4: the loader skips any line whose trimmed key is empty without calling
the policy, so the policy is only ever invoked on keys that are non-empty
after trimming (in particular never on empty or whitespace-only keys): two
policies agreeing on all such keys load identically. -/
theorem loader_skips_empty_trimmed_keys :
    (∀ (p : PolicyFn) (rawLine : Line) (rest : List (Except IOError Line)) (env : EnvStore),
        trim (split_once (trim rawLine)).1 = [] →
        init_inner p (Except.ok rawLine :: rest) env = init_inner p rest env) ∧
    (∀ (p q : PolicyFn),
        (∀ env k v, k ≠ [] → trim k = k → p env k v = q env k v) →
        ∀ lines env, init_inner p lines env = init_inner q lines env) := by
  constructor
  · intro p rawLine rest env hk
    rw [init_inner_ok_cons]
    by_cases h1 : starts_with '#' (trim rawLine) = true
    · rw [if_pos h1]
    · rw [if_neg h1, if_pos hk]
  · intro p q h
    refine init_inner_policy_congr p q ?_
    intro env rawLine _ hk
    exact h env _ _ hk (trim_idem _)

/-- Witness for C4 at a concrete input. -/
theorem loader_skips_empty_trimmed_keys_witness :
    init_inner Override.set [Except.ok [' ']] (fun _ => none)
      = init_inner Override.set [] (fun _ => none) :=
  loader_skips_empty_trimmed_keys.1 Override.set [' '] [] (fun _ => none) (by decide)

/-- C5: a line whose trimmed form starts with `#` is skipped without calling
the policy (the check runs after trimming, so indented comments count), and
a load consisting only of blank and comment lines, under any policy, leaves
the store unchanged and succeeds. -/
theorem comment_and_blank_lines_inert :
    (∀ (p : PolicyFn) (rawLine : Line) (rest : List (Except IOError Line)) (env : EnvStore),
        starts_with '#' (trim rawLine) = true →
        init_inner p (Except.ok rawLine :: rest) env = init_inner p rest env) ∧
    (∀ (p : PolicyFn) (lines : List (Except IOError Line)) (env : EnvStore),
        (∀ item ∈ lines, ∃ s, item = Except.ok s ∧
          (trim s = [] ∨ starts_with '#' (trim s) = true)) →
        init_inner p lines env = (env, none)) := by
  constructor
  · intro p rawLine rest env h1
    rw [init_inner_ok_cons, if_pos h1]
  · intro p lines
    induction lines with
    | nil => intro env _; rfl
    | cons item rest ih =>
      intro env h
      have hrest := fun x hx => h x (List.mem_cons_of_mem item hx)
      obtain ⟨s, hitem, hs⟩ := h item (List.mem_cons_self item rest)
      subst hitem
      rw [init_inner_ok_cons]
      rcases hs with hblank | hcomment
      · have hkey : trim (split_once (trim s)).1 = [] := by rw [hblank]; rfl
        by_cases h1 : starts_with '#' (trim s) = true
        · rw [if_pos h1]; exact ih env hrest
        · rw [if_neg h1, if_pos hkey]; exact ih env hrest
      · rw [if_pos hcomment]; exact ih env hrest

/-- Witness for C5 at a concrete input: an indented comment and a blank
line leave the store unchanged. -/
theorem comment_and_blank_lines_inert_witness :
    init_inner Skip.set [Except.ok [' ', '#', 'x'], Except.ok [' ']] (fun _ => none)
      = ((fun _ => none : EnvStore), none) := by
  refine comment_and_blank_lines_inert.2 Skip.set _ _ ?_
  intro item h
  simp only [List.mem_cons, List.not_mem_nil, or_false] at h
  rcases h with h | h
  · exact ⟨[' ', '#', 'x'], h, Or.inr (by decide)⟩
  · exact ⟨[' '], h, Or.inl (by decide)⟩

/-- C6: a failing line read aborts the load at once with an I/O error whose
source is the underlying cause; no later line is processed (the result does
not depend on what follows the failure) and nothing is rolled back (the
store is exactly the one produced by the lines before the failure). -/
theorem read_failure_aborts (p : PolicyFn)
    (hp : ∀ env k v, ∃ env2, p env k v = Except.ok env2)
    (pre : List Line) (e : IOError) (rest : List (Except IOError Line)) (env : EnvStore) :
    init_inner p (pre.map Except.ok ++ Except.error e :: rest) env
      = ((init_inner p (pre.map Except.ok) env).1, some (FaktorError.Io e)) ∧
    FaktorError.source (FaktorError.Io e) = some e := by
  refine ⟨?_, rfl⟩
  induction pre generalizing env with
  | nil => rfl
  | cons s pre ih =>
    simp only [List.map_cons, List.cons_append]
    rw [init_inner_ok_cons, init_inner_ok_cons]
    by_cases h1 : starts_with '#' (trim s) = true
    · rw [if_pos h1, if_pos h1]
      exact ih env
    · rw [if_neg h1, if_neg h1]
      by_cases h2 : trim (split_once (trim s)).1 = []
      · rw [if_pos h2, if_pos h2]
        exact ih env
      · rw [if_neg h2, if_neg h2]
        obtain ⟨env2, hok⟩ := hp env (trim (split_once (trim s)).1) (split_once (trim s)).2
        rw [hok]
        exact ih env2

/-- Witness for C6 at a concrete input, with the Override policy. -/
theorem read_failure_aborts_witness :
    init_inner Override.set
        (([['A', '=', '1']].map Except.ok) ++ Except.error ⟨0⟩ :: []) (fun _ => none)
      = ((init_inner Override.set ([['A', '=', '1']].map Except.ok) (fun _ => none)).1,
          some (FaktorError.Io ⟨0⟩)) ∧
    FaktorError.source (FaktorError.Io ⟨0⟩) = some ⟨0⟩ :=
  read_failure_aborts Override.set
    (fun env k v =>
      match v with
      | none => ⟨envRemoveVar env k, rfl⟩
      | some [] => ⟨envRemoveVar env k, rfl⟩
      | some (c :: cs) => ⟨envSetVar env k (c :: cs), rfl⟩)
    [['A', '=', '1']] ⟨0⟩ [] (fun _ => none)

/-- C7: when the file cannot be opened, the load returns the wrapped I/O
error and the environment store is completely unchanged — no policy was
applied before the open-time failure. -/
theorem open_failure_leaves_store (fs : FileSystem) (filename : List Char)
    (mode : PolicyFn) (env : EnvStore) (e : IOError)
    (h : fs filename = Except.error e) :
    from_file fs filename mode env = (env, some (FaktorError.Io e)) := by
  unfold from_file
  rw [h]

/-- Witness for C7 at a concrete input. -/
theorem open_failure_leaves_store_witness :
    from_file (fun _ => Except.error ⟨1⟩) ['.', 'e', 'n', 'v'] Override.set (fun _ => none)
      = ((fun _ => none : EnvStore), some (FaktorError.Io ⟨1⟩)) :=
  open_failure_leaves_store (fun _ => Except.error ⟨1⟩) ['.', 'e', 'n', 'v']
    Override.set (fun _ => none) ⟨1⟩ rfl

/-- C8: `init` delegates to the filename entry point applied to the default
filename `.env`: the two calls coincide for every policy, file system and
starting store. -/
theorem init_uses_default_filename (fs : FileSystem) (mode : PolicyFn) (env : EnvStore) :
    init fs mode env = from_file fs (['.', 'e', 'n', 'v']) mode env := rfl

/-- Witness for C8 at a concrete input. -/
theorem init_uses_default_filename_witness :
    init (fun _ => Except.ok []) Override.set (fun _ => none)
      = from_file (fun _ => Except.ok []) (['.', 'e', 'n', 'v']) Override.set (fun _ => none) :=
  init_uses_default_filename (fun _ => Except.ok []) Override.set (fun _ => none)

/-- One Skip application never removes a key and never changes a present
value. -/
theorem skip_set_step (env : EnvStore) (key : List Char) (value : Option (List Char)) :
    ∃ env2, Skip.set env key value = Except.ok env2 ∧
      (∀ k v, env k = some v → env2 k = some v) ∧
      (∀ k, env2 k = none → env k = none) := by
  cases value with
  | none => exact ⟨env, rfl, fun _ _ h => h, fun _ h => h⟩
  | some v =>
    cases hv : env key with
    | none =>
      refine ⟨envSetVar env key v, by simp only [Skip.set, envVar, hv], ?_, ?_⟩
      · intro k w hw
        by_cases hk : k = key
        · subst hk
          rw [hv] at hw
          cases hw
        · simp [envSetVar, hk, hw]
      · intro k h2
        by_cases hk : k = key
        · simp [envSetVar, hk] at h2
        · simp only [envSetVar, if_neg hk] at h2
          exact h2
    | some old =>
      exact ⟨env, by simp only [Skip.set, envVar, hv], fun _ _ h => h, fun _ h => h⟩

/-- C9: a whole load under the Skip policy never removes a variable and
never changes the value of a variable present before the load: every
pre-existing key keeps its exact value and the key set only grows. -/
theorem skip_load_never_shrinks (lines : List (Except IOError Line))
    (env : EnvStore) (k : List Char) :
    (∀ v, env k = some v → (init_inner Skip.set lines env).1 k = some v) ∧
    ((init_inner Skip.set lines env).1 k = none → env k = none) := by
  induction lines generalizing env with
  | nil => exact ⟨fun _ h => h, fun h => h⟩
  | cons item rest ih =>
    cases item with
    | error e => exact ⟨fun _ h => h, fun h => h⟩
    | ok s =>
      rw [init_inner_ok_cons]
      by_cases h1 : starts_with '#' (trim s) = true
      · rw [if_pos h1]
        exact ih env
      · rw [if_neg h1]
        by_cases h2 : trim (split_once (trim s)).1 = []
        · rw [if_pos h2]
          exact ih env
        · rw [if_neg h2]
          obtain ⟨env2, hok, hpres, hnone⟩ :=
            skip_set_step env (trim (split_once (trim s)).1) (split_once (trim s)).2
          rw [hok]
          exact ⟨fun v hv => (ih env2).1 v (hpres k v hv), fun h => hnone k ((ih env2).2 h)⟩

/-- Witness for C9 at a concrete input: a pre-existing key keeps its value
across a Skip load that tries to overwrite it. -/
theorem skip_load_never_shrinks_witness :
    (init_inner Skip.set [Except.ok ['K', '=', 'n']]
      (fun k => if k = ['K'] then some ['o'] else none)).1 ['K'] = some ['o'] :=
  (skip_load_never_shrinks [Except.ok ['K', '=', 'n']]
    (fun k => if k = ['K'] then some ['o'] else none) ['K']).1 ['o'] (by decide)

/-- C10: every key the loader hands to a policy is fully trimmed (no leading
or trailing whitespace) and every present value it hands over has no
trailing whitespace, because the whole line is trimmed before parsing and
the key is trimmed afterwards: two policies agreeing on all such inputs
load identically. -/
theorem policy_gets_trimmed_key_and_value (p q : PolicyFn)
    (h : ∀ env k v, trim k = k →
      (∀ s, v = some s → trim_end s = s) →
      p env k v = q env k v) :
    ∀ lines env, init_inner p lines env = init_inner q lines env := by
  refine init_inner_policy_congr p q ?_
  intro env rawLine _ _
  refine h env _ _ (trim_idem _) ?_
  intro s hs
  rcases split_once_spec (trim rawLine) with ⟨h1, _⟩ | ⟨k0, v0, h1, h2, _⟩
  · rw [h1] at hs
    cases hs
  · rw [h1] at hs
    have hv : v0 = s := by simpa using hs
    subst hv
    have htrimmed : trim_end (trim rawLine) = trim rawLine := trim_end_trim rawLine
    rw [h2] at htrimmed
    have heq : (k0 ++ ['=']) ++ v0 = k0 ++ '=' :: v0 := by simp
    refine trim_end_suffix (k0 ++ ['=']) v0 ?_
    rw [heq]
    exact htrimmed

/-- Witness for C10 at a concrete input. -/
theorem policy_gets_trimmed_key_and_value_witness :
    init_inner Skip.set [Except.ok ['A', '=', 'b']] (fun _ => none)
      = init_inner Skip.set [Except.ok ['A', '=', 'b']] (fun _ => none) :=
  policy_gets_trimmed_key_and_value Skip.set Skip.set
    (fun _ _ _ _ _ => rfl) [Except.ok ['A', '=', 'b']] (fun _ => none)
